import Mathlib

/-!
Verification development for the CMaNGOS `WorldSocket` per-connection
protocol engine (`src/game/WorldSocket.h`).

The repository provides the declaration surface (`WorldSocket.h`): the class
members (`m_Crypt`, `m_Session`, `m_RecvWPct`, `m_Header`, `m_OverSpeedPings`,
`m_LastPingTime`, `m_s`) and the handler signatures
(`handle_input_header`, `handle_input_payload`, `ProcessIncoming`,
`HandleAuthSession`, `HandlePing`, `ProcessIncomingData`, `SendPacket`).
The method bodies (`WorldSocket.cpp`, `AuthCrypt`) are not part of the
sources, so every behavioural definition below is modelled from the
specification's description of the components (FrameCodec, OutputBatcher,
EncryptionContext, PingGuard, SessionBinding, ConnectionEngine), keeping the
declared names and member layout of the header file.

Bytes are modelled as `Nat` (the wire values), machine integers as `Nat`/`Int`;
the handlers return `Int` status codes exactly as declared in the header
("Most methods return -1 on failure").
-/

/-- Modelled from the spec: fixed-size wire header carrying payload length and
opcode ("fixed-size header = \x7bpayload length : unsigned integer, opcode :
unsigned integer\x7d"); size of that header in bytes. -/
def HEADER_SIZE : Nat := 6

/-- Modelled from the spec: "Maximum payload length is a fixed protocol
constant; frames exceeding it are rejected". -/
def MAX_PAYLOAD_LENGTH : Nat := 10240

/-- Opcode of the authentication-handshake control packet (CMSG_AUTH_SESSION). -/
def CMSG_AUTH_SESSION : Nat := 493

/-- Opcode of the keep-alive control packet (CMSG_PING). -/
def CMSG_PING : Nat := 476

/-- Opcode of the authentication-result packet sent back to the client. -/
def SMSG_AUTH_RESPONSE : Nat := 494

/-- Modelled from the spec: "the protocol's minimum allowed interval" between
keep-alive pings (abstract time units). -/
def MIN_PING_INTERVAL : Nat := 27

/-- Modelled from the spec: the "fixed threshold" of the over-speed ping
counter past which the connection is terminated. -/
def MAX_OVERSPEED_PINGS : Nat := 2

/-- Capacity of the shared output buffer ("one buffer (64K usually)"). -/
def OUT_BUFFER_SIZE : Nat := 65536

/-! ## EncryptionContext (`AuthCrypt m_Crypt`) -/

/-- Modelled from the spec: the `EncryptionContext` / `AuthCrypt` member.
"holds the negotiated stream-cipher state and session key; starts inert,
becomes active after authentication succeeds."  The RC4-style stream cipher is
modelled as XOR against a keystream derived from the session key; `sendI` and
`recvI` are the positions of the outgoing and incoming keystreams (encrypting
or decrypting advances the corresponding position). -/
structure AuthCrypt where
  active : Bool
  key : List Nat
  sendI : Nat
  recvI : Nat
deriving Repr, DecidableEq

/-- Keystream byte at position `i` for a session `key`. -/
def ks (key : List Nat) (i : Nat) : Nat :=
  key.getD (i % key.length) 0

/-- Apply the stream cipher (XOR with the keystream) to `bs`, starting at
keystream position `i`. -/
def streamXor (key : List Nat) : Nat → List Nat → List Nat
  | _, [] => []
  | i, b :: rest => (b ^^^ ks key i) :: streamXor key (i + 1) rest

/-- Modelled from the spec: `encryptHeader` of the `EncryptionContext`.
"Before activation both encrypt/decrypt are no-ops (pass-through)"; once
active it applies the stream cipher and advances the outgoing keystream. -/
def encryptHeader (c : AuthCrypt) (bs : List Nat) : List Nat × AuthCrypt :=
  if c.active then
    (streamXor c.key c.sendI bs, { c with sendI := c.sendI + bs.length })
  else (bs, c)

/-- Modelled from the spec: `decryptHeader` of the `EncryptionContext`;
pass-through when inactive, stream-cipher transform advancing the incoming
keystream when active. -/
def decryptHeader (c : AuthCrypt) (bs : List Nat) : List Nat × AuthCrypt :=
  if c.active then
    (streamXor c.key c.recvI bs, { c with recvI := c.recvI + bs.length })
  else (bs, c)

/-- Modelled from the spec: `EncryptionContext.activate(sessionKey)` — the
context becomes active, keyed by the session key, keystreams at position 0. -/
def AuthCrypt.activate (key : List Nat) : AuthCrypt :=
  ⟨true, key, 0, 0⟩

/-- The inert encryption context a connection starts with. -/
def AuthCrypt.initial : AuthCrypt := ⟨false, [], 0, 0⟩

/-! ## Basic stream-cipher lemmas -/

theorem streamXor_involutive (key : List Nat) :
    ∀ (i : Nat) (bs : List Nat), streamXor key i (streamXor key i bs) = bs := by
  intro i bs
  induction bs generalizing i with
  | nil => rfl
  | cons b rest ih =>
      simp [streamXor, ih, Nat.xor_assoc, Nat.xor_self, Nat.xor_zero]

/-! ## Frames, session binding, socket state -/

/-- One complete header+payload unit of the wire protocol, after decoding
(a `WorldPacket`): opcode plus payload bytes. -/
structure Frame where
  opcode : Nat
  payload : List Nat
deriving Repr, DecidableEq

/-- Modelled from the spec: the `SessionBinding` component (`m_Session`
member): "a nullable reference to the game session"; its lifecycle is
"monotonic: unset → set → cleared → terminal". -/
inductive Binding where
  | unset
  | set (sid : Nat)
  | cleared
deriving Repr, DecidableEq

/-- Operations performed on the session binding: binding by successful
authentication, clearing by teardown. -/
inductive BindingOp where
  | bind (sid : Nat)
  | clear
deriving Repr, DecidableEq

/-- Modelled from the spec: the transition discipline of `SessionBinding` —
binding succeeds only from the unset state (duplicate authentication never
reaches the bind), clearing moves any state to cleared, and cleared is
terminal ("once cleared, it may never be rebound"). -/
def bindingStep : Binding → BindingOp → Binding
  | .unset, .bind sid => .set sid
  | b, .bind _ => b
  | _, .clear => .cleared

/-- Run a sequence of binding operations. -/
def runBinding (b : Binding) (ops : List BindingOp) : Binding :=
  ops.foldl bindingStep b

/-- Position of a binding state in the monotonic lifecycle
unset → set → cleared. -/
def Binding.rank : Binding → Nat
  | .unset => 0
  | .set _ => 1
  | .cleared => 2

/-- The two mutual-exclusion scopes of the connection: the I/O-path lock and
the dedicated session lock (`LockType m_SessionLock`). -/
inductive LockId where
  | ioLock
  | sessionLock
deriving Repr, DecidableEq

/-- Modelled from the spec: every access to the session binding is performed
under the dedicated session lock ("Mutex lock to protect m_Session"),
never under the I/O-path lock. -/
def lockForBindingAccess : BindingOp → LockId :=
  fun _ => LockId.sessionLock

/-- Modelled from the spec: the state of one `WorldSocket` connection.
Fields keep the member names of `WorldSocket.h`; `frames` (packets handed to
the dispatcher), `routed` (packets routed to the bound session), `sent`
(wire bytes of packets sent back to the client) and `closed` record the
externally observable behaviour of the engine. -/
structure WS where
  m_Crypt : AuthCrypt
  m_Session : Binding
  m_s : Option (List Nat)
  m_LastPingTime : Option Nat
  m_OverSpeedPings : Nat
  m_Header : List Nat
  m_RecvWPct : Option (Nat × Nat × List Nat)
  frames : List Frame
  routed : List (Nat × Frame)
  sent : List (List Nat)
  closed : Bool
deriving Repr, DecidableEq

/-- A freshly accepted connection with the given encryption context:
unauthenticated, no partial frame, nothing dispatched. -/
def mkWS (c : AuthCrypt) : WS :=
  ⟨c, .unset, none, none, 0, [], none, [], [], [], false⟩

/-! ## FrameCodec: header parsing and encoding -/

/-- Parse a complete (decrypted) header: payload length (2 bytes, big endian)
followed by the opcode (4 bytes, little endian). -/
def parseHeader (bs : List Nat) : Nat × Nat :=
  (bs.getD 0 0 * 256 + bs.getD 1 0,
   bs.getD 2 0 + 256 * (bs.getD 3 0 + 256 * (bs.getD 4 0 + 256 * bs.getD 5 0)))

/-- Construct the clear-text fixed-size header for a payload length and an
opcode (the encode path of the FrameCodec). -/
def encodeHeader (len op : Nat) : List Nat :=
  [len / 256 % 256, len % 256,
   op % 256, op / 256 % 256, op / 65536 % 256, op / 16777216 % 256]

/-! ## FrameCodec: decode state machine -/

/-- Modelled from the spec: `handle_input_header` — invoked once the
fixed-size header fragment `m_Header` is complete.  Decrypts the header if
the encryption context is active, parses payload length and opcode, and
"validates length ≤ maximum allowed (fail with ProtocolViolation
otherwise)"; on a zero-length payload the frame is complete immediately,
otherwise the machine transitions to payload accumulation (`m_RecvWPct`).
Returns -1 on failure as declared in `WorldSocket.h`. -/
def handle_input_header (ws : WS) : WS × Int :=
  let dc := decryptHeader ws.m_Crypt ws.m_Header
  let hdr := parseHeader dc.1
  if hdr.1 > MAX_PAYLOAD_LENGTH then
    ({ ws with m_Crypt := dc.2, closed := true }, -1)
  else if hdr.1 = 0 then
    ({ ws with m_Crypt := dc.2, m_Header := [], m_RecvWPct := none,
               frames := ws.frames ++ [⟨hdr.2, []⟩] }, 0)
  else
    ({ ws with m_Crypt := dc.2, m_Header := [],
               m_RecvWPct := some (hdr.2, hdr.1, []) }, 0)

/-- Modelled from the spec: `handle_input_payload` — once the payload buffer
holds exactly the declared length, the full frame is handed to the
dispatcher and the state resets to header accumulation. -/
def handle_input_payload (ws : WS) : WS × Int :=
  match ws.m_RecvWPct with
  | some (op, len, acc) =>
      if acc.length = len then
        ({ ws with m_RecvWPct := none, frames := ws.frames ++ [⟨op, acc⟩] }, 0)
      else (ws, 0)
  | none => (ws, 0)

/-- Modelled from the spec: one byte of the decode state machine.
`AwaitingHeader` (when `m_RecvWPct` is empty) accumulates into `m_Header`
and runs `handle_input_header` once the header is complete; `AwaitingPayload`
accumulates into the payload fragment and runs `handle_input_payload` once
the declared length has arrived.  A closed connection consumes nothing. -/
def stepByte (ws : WS) (b : Nat) : WS :=
  if ws.closed then ws
  else
    match ws.m_RecvWPct with
    | some (op, len, acc) =>
        let ws' := { ws with m_RecvWPct := some (op, len, acc ++ [b]) }
        if acc.length + 1 = len then (handle_input_payload ws').1 else ws'
    | none =>
        let hdr := ws.m_Header ++ [b]
        if hdr.length = HEADER_SIZE then
          (handle_input_header { ws with m_Header := hdr }).1
        else { ws with m_Header := hdr }

/-- Modelled from the spec: `ProcessIncomingData` — one invocation of the
read entry point, running the state machine "repeatedly over the accumulated
bytes until input is exhausted or a frame is incomplete". -/
def ProcessIncomingData (ws : WS) (bytes : List Nat) : WS :=
  bytes.foldl stepByte ws

/-- Feed a sequence of raw byte chunks to the decoder, one invocation of
`ProcessIncomingData` per chunk (one reactor callback per chunk). -/
def runChunks (ws : WS) (chunks : List (List Nat)) : WS :=
  chunks.foldl ProcessIncomingData ws

/-! ## ConnectionEngine: control-packet handlers and dispatcher -/

/-- Outcome of `verifyCredentials(identity, proof)` delivered by the
session/authentication collaborator (external interface, §6 of the spec). -/
inductive AuthOutcome where
  | ok (sid : Nat) (key : List Nat)
  | unknownAccount
  | badProof
  | banned
  | serverFull
deriving Repr, DecidableEq

/-- Result code carried by the authentication-result packet. -/
def authResultCode : AuthOutcome → Nat
  | .ok _ _ => 12
  | .unknownAccount => 21
  | .badProof => 22
  | .banned => 23
  | .serverFull => 24

/-- Build and header-encrypt the authentication-result packet under the given
encryption context (the FrameCodec encode path applied to the result). -/
def sendAuthResult (c : AuthCrypt) (code : Nat) : List Nat × AuthCrypt :=
  let hdr := encodeHeader 1 SMSG_AUTH_RESPONSE
  let e := encryptHeader c hdr
  (e.1 ++ [code], e.2)

/-- Modelled from the spec: `HandleAuthSession`, called by `ProcessIncoming`
on CMSG_AUTH_SESSION.  "Validates that authentication has not already
occurred on this connection (fails with ProtocolViolation)"; on verified
credentials it sets the session key `m_s`, activates the encryption context,
binds the session, and sends the authentication-result packet (whose header
is encrypted by the now-active cipher); on a failed verification it sends
the specific failure code without activating encryption or binding. -/
def HandleAuthSession (ws : WS) (outcome : AuthOutcome) : WS × Int :=
  if ws.m_Crypt.active then
    ({ ws with closed := true }, -1)
  else
    match outcome with
    | .ok sid key =>
        let c := AuthCrypt.activate key
        let r := sendAuthResult c (authResultCode (.ok sid key))
        ({ ws with m_s := some key, m_Crypt := r.2,
                   m_Session := bindingStep ws.m_Session (.bind sid),
                   sent := ws.sent ++ [r.1] }, 0)
    | fail =>
        let r := sendAuthResult ws.m_Crypt (authResultCode fail)
        ({ ws with m_Crypt := r.2, sent := ws.sent ++ [r.1] }, -1)

/-- Modelled from the spec: `HandlePing`, called by `ProcessIncoming` on
CMSG_PING.  Updates the last-ping timestamp; the over-speed counter
"increments when consecutive pings arrive faster than the protocol's minimum
allowed interval and resets when they don't"; past the fixed threshold the
connection is forcibly terminated with a protocol violation.  The first ping
only records the timestamp. -/
def HandlePing (ws : WS) (now : Nat) : WS × Int :=
  if ws.closed then (ws, -1)
  else
    match ws.m_LastPingTime with
    | none => ({ ws with m_LastPingTime := some now }, 0)
    | some t =>
        if now - t < MIN_PING_INTERVAL then
          if MAX_OVERSPEED_PINGS < ws.m_OverSpeedPings + 1 then
            ({ ws with closed := true }, -1)
          else
            ({ ws with m_OverSpeedPings := ws.m_OverSpeedPings + 1,
                       m_LastPingTime := some now }, 0)
        else
          ({ ws with m_OverSpeedPings := 0, m_LastPingTime := some now }, 0)

/-- Environment of one dispatch: the current time (for the ping guard) and
the credential-verification outcome the collaborator would return (for the
authentication handler). -/
structure Env where
  now : Nat
  outcome : AuthOutcome
deriving Repr, DecidableEq

/-- Modelled from the spec: `ProcessIncoming` — the dispatcher.  Control
opcodes go to `HandlePing` / `HandleAuthSession`; "all others require an
established SessionBinding — if none exists, fail with ProtocolViolation",
otherwise the frame is handed to the bound session. -/
def ProcessIncoming (ws : WS) (f : Frame) (env : Env) : WS × Int :=
  if f.opcode = CMSG_PING then HandlePing ws env.now
  else if f.opcode = CMSG_AUTH_SESSION then HandleAuthSession ws env.outcome
  else
    match ws.m_Session with
    | .set sid => ({ ws with routed := ws.routed ++ [(sid, f)] }, 0)
    | _ => ({ ws with closed := true }, -1)

/-- Feed a sequence of ping arrival times through `HandlePing`. -/
def runPings (ws : WS) (ts : List Nat) : WS :=
  ts.foldl (fun w t => (HandlePing w t).1) ws

/-- The arrival times `ts`, following a last ping at `t0`, are all too fast:
each consecutive interval is strictly below the minimum allowed. -/
def fastTimes : Nat → List Nat → Prop
  | _, [] => True
  | t0, t :: rest => t0 ≤ t ∧ t - t0 < MIN_PING_INTERVAL ∧ fastTimes t rest

/-- The arrival times `ts`, following a last ping at `t0`, are all compliant:
each consecutive interval is at or above the minimum allowed. -/
def slowTimes : Nat → List Nat → Prop
  | _, [] => True
  | t0, t :: rest => MIN_PING_INTERVAL ≤ t - t0 ∧ slowTimes t rest

/-! ## OutputBatcher -/

/-- Modelled from the spec: the `OutputBatcher` state — the shared
fixed-capacity output buffer, the ordered overflow queue of packets that did
not fit, and the bytes already written to the transport (in write order). -/
structure Batcher where
  written : List Nat
  buffer : List Nat
  queue : List (List Nat)
deriving Repr, DecidableEq

/-- Modelled from the spec: on a flush opportunity with an empty buffer,
"begin moving queued packets into the buffer until the buffer is full again
or the queue is empty" — packets move in queue order, stopping at the first
packet that does not fit. -/
def refill (cap : Nat) : List Nat → List (List Nat) → List Nat × List (List Nat)
  | buf, [] => (buf, [])
  | buf, p :: rest =>
      if buf.length + p.length ≤ cap then refill cap (buf ++ p) rest
      else (buf, p :: rest)

/-- Modelled from the spec: `send(bytes)` of the OutputBatcher — "if the
shared buffer has capacity, copy in and return immediately without writing to
the socket. If not, append a newly allocated packet to the overflow queue."
The buffer is used only while the overflow queue is empty, as required by the
ordering invariant (the queue "is drained only after the buffer is empty"). -/
def Batcher.send (b : Batcher) (pkt : List Nat) : Batcher :=
  if b.buffer.length + pkt.length ≤ OUT_BUFFER_SIZE ∧ b.queue = [] then
    { b with buffer := b.buffer ++ pkt }
  else
    { b with queue := b.queue ++ [pkt] }

/-- Modelled from the spec: a flush opportunity — "write as much of the
buffer as the socket accepts (speculative/partial writes allowed)"; `accept`
is how many bytes the socket accepts; if the buffer drains completely the
overflow queue is moved into the buffer; "unsent bytes remain for the next
opportunity — never dropped, never reordered". -/
def Batcher.flush (b : Batcher) (accept : Nat) : Batcher :=
  let n := min accept b.buffer.length
  let w := b.written ++ b.buffer.take n
  let rem := b.buffer.drop n
  if rem = [] then
    let rq := refill OUT_BUFFER_SIZE [] b.queue
    ⟨w, rq.1, rq.2⟩
  else ⟨w, rem, b.queue⟩

/-- One event on the output path: a producer call accepted by `send`, or a
flush opportunity (periodic tick / writability notification). -/
inductive BatchOp where
  | send (pkt : List Nat)
  | flush (accept : Nat)
deriving Repr, DecidableEq

/-- Apply one output-path event. -/
def batchStep (b : Batcher) : BatchOp → Batcher
  | .send p => b.send p
  | .flush a => b.flush a

/-- Run a sequence of output-path events. -/
def runBatch (b : Batcher) (ops : List BatchOp) : Batcher :=
  ops.foldl batchStep b

/-- The payload bytes of all packets accepted by `send` in an event
sequence, in call order. -/
def sentBytes : List BatchOp → List Nat
  | [] => []
  | .send p :: rest => p ++ sentBytes rest
  | .flush _ :: rest => sentBytes rest

/-- The full byte stream a batcher state accounts for: bytes already written
to the transport, then the buffer, then the overflow queue in order. -/
def outStream (b : Batcher) : List Nat :=
  b.written ++ b.buffer ++ b.queue.flatten

/-- Modelled from the spec: `SendPacket` of `WorldSocket` ("@return false of
failure", reentrant producer entry point): fails only when the connection is
closed, otherwise hands the wire bytes to the OutputBatcher. -/
def SendPacket (wsClosed : Bool) (b : Batcher) (pkt : List Nat) : Batcher × Bool :=
  if wsClosed then (b, false) else (b.send pkt, true)

/-! ## Decode state machine lemmas -/

theorem runChunks_eq_flatten (chunks : List (List Nat)) :
    ∀ ws, runChunks ws chunks = ProcessIncomingData ws chunks.flatten := by
  induction chunks with
  | nil => intro ws; rfl
  | cons c rest ih =>
      intro ws
      show runChunks (ProcessIncomingData ws c) rest = _
      rw [ih]
      simp [ProcessIncomingData, List.foldl_append]

theorem stepByte_closed (ws : WS) (b : Nat) (h : ws.closed = true) :
    stepByte ws b = ws := by
  simp [stepByte, h]

theorem ProcessIncomingData_closed (bs : List Nat) :
    ∀ ws, ws.closed = true → ProcessIncomingData ws bs = ws := by
  induction bs with
  | nil => intro ws _; rfl
  | cons b rest ih =>
      intro ws h
      show ProcessIncomingData (stepByte ws b) rest = ws
      rw [stepByte_closed ws b h]
      exact ih ws h

theorem ProcessIncomingData_header_complete (bs : List Nat) :
    ∀ ws, ws.closed = false → ws.m_RecvWPct = none → bs ≠ [] →
    ws.m_Header.length + bs.length = HEADER_SIZE →
    ProcessIncomingData ws bs =
      (handle_input_header { ws with m_Header := ws.m_Header ++ bs }).1 := by
  induction bs with
  | nil => intro ws _ _ hne _; exact absurd rfl hne
  | cons b rest ih =>
      intro ws hcl hrw _ hlen
      show ProcessIncomingData (stepByte ws b) rest = _
      rw [stepByte, if_neg (by simp [hcl]), hrw]
      rcases rest with _ | ⟨b2, rest2⟩
      · have h6 : (ws.m_Header ++ [b]).length = HEADER_SIZE := by
          simpa using hlen
        rw [if_pos h6]
        rfl
      · have hlt : ¬((ws.m_Header ++ [b]).length = HEADER_SIZE) := by
          simp [HEADER_SIZE] at hlen ⊢
          omega
        rw [if_neg hlt]
        have := ih { ws with m_Header := ws.m_Header ++ [b] }
          (by simp [hcl]) (by simp [hrw]) (by simp)
          (by simp [HEADER_SIZE] at hlen ⊢
              omega)
        simpa [List.append_assoc, hrw] using this

/-! ## Claim theorems -/

/-- Claim C1: for every sequence of raw byte chunks whose concatenation
decodes (in one invocation of `ProcessIncomingData`, without protocol
violation) to the frame list `fs`, running the decode state machine on the
chunks under that split — one `ProcessIncomingData` invocation per chunk,
including byte-at-a-time splits — dispatches the same frames `fs`, in the
same order, and likewise without protocol violation. -/
theorem claim_C1_split_invariance (ws : WS) (chunks : List (List Nat))
    (fs : List Frame)
    (hok : (ProcessIncomingData ws chunks.flatten).closed = false)
    (hfs : (ProcessIncomingData ws chunks.flatten).frames = fs) :
    (runChunks ws chunks).frames = fs ∧ (runChunks ws chunks).closed = false := by
  rw [runChunks_eq_flatten]
  exact ⟨hfs, hok⟩

/-- Witness for C1: one valid frame (header declaring a 2-byte payload,
opcode 1, then payload bytes 7 and 8) fed one byte at a time yields the same
single decoded frame as the full concatenation. -/
theorem claim_C1_split_invariance_witness :
    (runChunks (mkWS AuthCrypt.initial)
        [[0], [2], [1], [0], [0], [0], [7], [8]]).frames = [⟨1, [7, 8]⟩]
    ∧ (runChunks (mkWS AuthCrypt.initial)
        [[0], [2], [1], [0], [0], [0], [7], [8]]).closed = false :=
  claim_C1_split_invariance (mkWS AuthCrypt.initial)
    [[0], [2], [1], [0], [0], [0], [7], [8]] [⟨1, [7, 8]⟩]
    (by decide) (by decide)

/-- Claim C2: a complete header that, after any applicable decryption,
declares a payload length above `MAX_PAYLOAD_LENGTH` makes
`handle_input_header` fail with -1 (protocol violation) and closes the
connection, regardless of how many payload bytes follow on the stream; no
frame is ever dispatched from such input (the dispatched-frame list is left
untouched). -/
theorem claim_C2_oversized_header (ws : WS) (hdr rest : List Nat)
    (hcl : ws.closed = false) (hrw : ws.m_RecvWPct = none)
    (hhd : ws.m_Header = []) (hlen : hdr.length = HEADER_SIZE)
    (hbig : (parseHeader (decryptHeader ws.m_Crypt hdr).1).1 > MAX_PAYLOAD_LENGTH) :
    (handle_input_header { ws with m_Header := hdr }).2 = -1
    ∧ (handle_input_header { ws with m_Header := hdr }).1.closed = true
    ∧ (ProcessIncomingData ws (hdr ++ rest)).closed = true
    ∧ (ProcessIncomingData ws (hdr ++ rest)).frames = ws.frames := by
  have hne : hdr ≠ [] := by
    intro h
    rw [h] at hlen
    simp [HEADER_SIZE] at hlen
  have hh : handle_input_header { ws with m_Header := hdr } =
      ({ ws with m_Header := hdr,
                 m_Crypt := (decryptHeader ws.m_Crypt hdr).2,
                 closed := true }, -1) := by
    rw [handle_input_header]
    simp only []
    rw [if_pos (by simpa using hbig)]
  have hcomp := ProcessIncomingData_header_complete hdr ws hcl hrw hne
    (by simp [hhd, hlen])
  rw [hhd] at hcomp
  simp only [List.nil_append] at hcomp
  have hrun : ProcessIncomingData ws (hdr ++ rest) =
      (handle_input_header { ws with m_Header := hdr }).1 := by
    rw [ProcessIncomingData, List.foldl_append,
        ← ProcessIncomingData, ← ProcessIncomingData, hcomp]
    exact ProcessIncomingData_closed rest _ (by rw [hh])
  exact ⟨by rw [hh], by rw [hh], by rw [hrun, hh], by rw [hrun, hh]⟩

/-- Witness for C2: a clear-text header declaring payload length 10496
(above the 10240 maximum) followed by two stray bytes is rejected with -1,
closes the connection, and dispatches no frame. -/
theorem claim_C2_oversized_header_witness :
    (handle_input_header
        { mkWS AuthCrypt.initial with m_Header := [41, 0, 1, 0, 0, 0] }).2 = -1
    ∧ (handle_input_header
        { mkWS AuthCrypt.initial with
            m_Header := [41, 0, 1, 0, 0, 0] }).1.closed = true
    ∧ (ProcessIncomingData (mkWS AuthCrypt.initial)
        ([41, 0, 1, 0, 0, 0] ++ [9, 9])).closed = true
    ∧ (ProcessIncomingData (mkWS AuthCrypt.initial)
        ([41, 0, 1, 0, 0, 0] ++ [9, 9])).frames = (mkWS AuthCrypt.initial).frames :=
  claim_C2_oversized_header (mkWS AuthCrypt.initial) [41, 0, 1, 0, 0, 0] [9, 9]
    rfl rfl rfl (by decide) (by decide)

/-- Claim C3: the encryption context starts inert and transforms headers
exactly when activated — before activation `encryptHeader` and
`decryptHeader` are pass-through no-ops; after activation both apply the
active stream cipher; and the authentication-result packet sent by a
successful `HandleAuthSession` already has its header encrypted by the
newly activated cipher. -/
theorem claim_C3_encryption_phases (c : AuthCrypt) (bs : List Nat) (ws : WS)
    (sid : Nat) (key : List Nat) :
    (c.active = false →
      encryptHeader c bs = (bs, c) ∧ decryptHeader c bs = (bs, c))
    ∧ (c.active = true →
      (encryptHeader c bs).1 = streamXor c.key c.sendI bs
      ∧ (decryptHeader c bs).1 = streamXor c.key c.recvI bs)
    ∧ (ws.m_Crypt.active = false →
      (HandleAuthSession ws (.ok sid key)).1.m_Crypt.active = true
      ∧ (HandleAuthSession ws (.ok sid key)).1.sent = ws.sent ++
          [streamXor key 0 (encodeHeader 1 SMSG_AUTH_RESPONSE)
            ++ [authResultCode (.ok sid key)]]) := by
  refine ⟨?_, ?_, ?_⟩
  · intro h
    simp [encryptHeader, decryptHeader, h]
  · intro h
    simp [encryptHeader, decryptHeader, h]
  · intro h
    simp [HandleAuthSession, h, sendAuthResult, encryptHeader, AuthCrypt.activate]

/-- Witness for C3: concrete pass-through before activation, cipher
transform after activation, and encrypted result-packet header on a
successful authentication from a fresh connection. -/
theorem claim_C3_encryption_phases_witness :
    (encryptHeader AuthCrypt.initial [3, 4] = ([3, 4], AuthCrypt.initial)
      ∧ decryptHeader AuthCrypt.initial [3, 4] = ([3, 4], AuthCrypt.initial))
    ∧ (encryptHeader (AuthCrypt.activate [1, 2]) [3, 4]).1 =
        streamXor [1, 2] 0 [3, 4]
    ∧ (HandleAuthSession (mkWS AuthCrypt.initial) (.ok 5 [1, 2])).1.sent =
        [streamXor [1, 2] 0 (encodeHeader 1 SMSG_AUTH_RESPONSE) ++ [12]] := by
  have h := claim_C3_encryption_phases AuthCrypt.initial [3, 4]
    (mkWS AuthCrypt.initial) 5 [1, 2]
  have h2 := claim_C3_encryption_phases (AuthCrypt.activate [1, 2]) [3, 4]
    (mkWS AuthCrypt.initial) 5 [1, 2]
  refine ⟨h.1 rfl, (h2.2.1 rfl).1, ?_⟩
  have h3 := (h.2.2 rfl).2
  simpa [mkWS, authResultCode] using h3

/-- Claim C4: applying `encryptHeader` and then `decryptHeader` with the
same activated context state (incoming keystream at the position the
outgoing keystream was at) returns the original header bytes:
encrypt-then-decrypt is the identity transform on headers. -/
theorem claim_C4_encrypt_decrypt_id (c : AuthCrypt) (bs : List Nat)
    (hact : c.active = true) (hsync : c.recvI = c.sendI) :
    (decryptHeader (encryptHeader c bs).2 (encryptHeader c bs).1).1 = bs := by
  simp [encryptHeader, decryptHeader, hact, hsync, streamXor_involutive]

/-- Witness for C4: a concrete activated context and header roundtrips to
the original bytes. -/
theorem claim_C4_encrypt_decrypt_id_witness :
    (decryptHeader (encryptHeader (AuthCrypt.activate [5, 6]) [1, 2, 3]).2
        (encryptHeader (AuthCrypt.activate [5, 6]) [1, 2, 3]).1).1 = [1, 2, 3] :=
  claim_C4_encrypt_decrypt_id (AuthCrypt.activate [5, 6]) [1, 2, 3] rfl rfl

/-- Claim C5: a non-control (gameplay) opcode is rejected with -1 (protocol
violation) and the connection closed when no session is bound, and is handed
to the bound session (return 0, connection untouched) after successful
authentication. -/
theorem claim_C5_gameplay_gating (ws : WS) (f : Frame) (env : Env)
    (hping : f.opcode ≠ CMSG_PING) (hauth : f.opcode ≠ CMSG_AUTH_SESSION) :
    (ws.m_Session = .unset →
      (ProcessIncoming ws f env).2 = -1
      ∧ (ProcessIncoming ws f env).1.closed = true
      ∧ (ProcessIncoming ws f env).1.routed = ws.routed)
    ∧ (∀ sid, ws.m_Session = .set sid →
      (ProcessIncoming ws f env).2 = 0
      ∧ (ProcessIncoming ws f env).1.routed = ws.routed ++ [(sid, f)]
      ∧ (ProcessIncoming ws f env).1.closed = ws.closed) := by
  constructor
  · intro h
    simp [ProcessIncoming, hping, hauth, h]
  · intro sid h
    simp [ProcessIncoming, hping, hauth, h]

/-- Witness for C5: gameplay opcode 100 is refused with -1 on an unbound
connection and routed to session 7 on a bound one. -/
theorem claim_C5_gameplay_gating_witness :
    ((ProcessIncoming (mkWS AuthCrypt.initial) ⟨100, []⟩ ⟨0, .badProof⟩).2 = -1
      ∧ (ProcessIncoming (mkWS AuthCrypt.initial) ⟨100, []⟩
          ⟨0, .badProof⟩).1.closed = true)
    ∧ ((ProcessIncoming { mkWS AuthCrypt.initial with m_Session := .set 7 }
          ⟨100, []⟩ ⟨0, .badProof⟩).2 = 0
      ∧ (ProcessIncoming { mkWS AuthCrypt.initial with m_Session := .set 7 }
          ⟨100, []⟩ ⟨0, .badProof⟩).1.routed = [(7, ⟨100, []⟩)]) := by
  have h1 := (claim_C5_gameplay_gating (mkWS AuthCrypt.initial) ⟨100, []⟩
    ⟨0, .badProof⟩ (by decide) (by decide)).1 rfl
  have h2 := (claim_C5_gameplay_gating
    { mkWS AuthCrypt.initial with m_Session := .set 7 } ⟨100, []⟩
    ⟨0, .badProof⟩ (by decide) (by decide)).2 7 rfl
  exact ⟨⟨h1.1, h1.2.1⟩, ⟨h2.1, by simpa [mkWS] using h2.2.1⟩⟩

/-- Claim C6: on a connection where authentication already succeeded (the
encryption context is active), a second authentication-handshake packet
makes `HandleAuthSession` fail with -1 (protocol violation, fatal), leaving
the session key `m_s`, the encryption state `m_Crypt`, and the session
binding `m_Session` unchanged. -/
theorem claim_C6_duplicate_auth (ws : WS) (outcome : AuthOutcome)
    (h : ws.m_Crypt.active = true) :
    (HandleAuthSession ws outcome).2 = -1
    ∧ (HandleAuthSession ws outcome).1.closed = true
    ∧ (HandleAuthSession ws outcome).1.m_s = ws.m_s
    ∧ (HandleAuthSession ws outcome).1.m_Crypt = ws.m_Crypt
    ∧ (HandleAuthSession ws outcome).1.m_Session = ws.m_Session := by
  simp [HandleAuthSession, h]

/-- Witness for C6: a duplicate handshake on an authenticated connection
(active context, key [1]) is fatal and mutates neither key, cipher state,
nor binding. -/
theorem claim_C6_duplicate_auth_witness :
    (HandleAuthSession (mkWS (AuthCrypt.activate [1])) .badProof).2 = -1
    ∧ (HandleAuthSession (mkWS (AuthCrypt.activate [1])) .badProof).1.closed = true
    ∧ (HandleAuthSession (mkWS (AuthCrypt.activate [1])) .badProof).1.m_s =
        (mkWS (AuthCrypt.activate [1])).m_s
    ∧ (HandleAuthSession (mkWS (AuthCrypt.activate [1])) .badProof).1.m_Crypt =
        (mkWS (AuthCrypt.activate [1])).m_Crypt
    ∧ (HandleAuthSession (mkWS (AuthCrypt.activate [1])) .badProof).1.m_Session =
        (mkWS (AuthCrypt.activate [1])).m_Session :=
  claim_C6_duplicate_auth (mkWS (AuthCrypt.activate [1])) .badProof rfl

/-! ## Ping-guard lemmas -/

theorem runPings_closed (ts : List Nat) :
    ∀ ws : WS, ws.closed = true → runPings ws ts = ws := by
  induction ts with
  | nil => intro ws _; rfl
  | cons t rest ih =>
      intro ws h
      show runPings (HandlePing ws t).1 rest = ws
      rw [HandlePing, if_pos h]
      exact ih ws h

theorem HandlePing_first (ws : WS) (t : Nat) (hcl : ws.closed = false)
    (hlp : ws.m_LastPingTime = none) :
    (HandlePing ws t).1 = { ws with m_LastPingTime := some t } := by
  simp [HandlePing, hcl, hlp]

theorem HandlePing_fast (ws : WS) (t0 t : Nat) (hcl : ws.closed = false)
    (hlp : ws.m_LastPingTime = some t0) (hdiff : t - t0 < MIN_PING_INTERVAL)
    (hno : ¬ MAX_OVERSPEED_PINGS < ws.m_OverSpeedPings + 1) :
    (HandlePing ws t).1 =
      { ws with m_OverSpeedPings := ws.m_OverSpeedPings + 1,
                m_LastPingTime := some t } := by
  simp [HandlePing, hcl, hlp, hdiff, hno]

theorem HandlePing_flood (ws : WS) (t0 t : Nat) (hcl : ws.closed = false)
    (hlp : ws.m_LastPingTime = some t0) (hdiff : t - t0 < MIN_PING_INTERVAL)
    (hover : MAX_OVERSPEED_PINGS < ws.m_OverSpeedPings + 1) :
    HandlePing ws t = ({ ws with closed := true }, -1) := by
  simp [HandlePing, hcl, hlp, hdiff, hover]

theorem HandlePing_slow (ws : WS) (t0 t : Nat) (hcl : ws.closed = false)
    (hlp : ws.m_LastPingTime = some t0)
    (hdiff : ¬ t - t0 < MIN_PING_INTERVAL) :
    (HandlePing ws t).1 =
      { ws with m_OverSpeedPings := 0, m_LastPingTime := some t } := by
  simp [HandlePing, hcl, hlp, hdiff]

theorem runPings_fast (ts : List Nat) :
    ∀ (ws : WS) (t0 : Nat), ws.closed = false →
    ws.m_LastPingTime = some t0 →
    ws.m_OverSpeedPings ≤ MAX_OVERSPEED_PINGS →
    fastTimes t0 ts →
    MAX_OVERSPEED_PINGS + 1 ≤ ws.m_OverSpeedPings + ts.length →
    (runPings ws ts).closed = true := by
  induction ts with
  | nil =>
      intro ws t0 _ _ hctr _ hlong
      simp at hlong
      omega
  | cons t rest ih =>
      intro ws t0 hcl hlp hctr hfast hlong
      obtain ⟨_, hdiff, hfrest⟩ := hfast
      show (runPings (HandlePing ws t).1 rest).closed = true
      by_cases hover : MAX_OVERSPEED_PINGS < ws.m_OverSpeedPings + 1
      · rw [show (HandlePing ws t).1 = { ws with closed := true } by
            rw [HandlePing_flood ws t0 t hcl hlp hdiff hover]]
        rw [runPings_closed rest _ rfl]
      · rw [HandlePing_fast ws t0 t hcl hlp hdiff hover]
        refine ih _ t hcl rfl (by simp; omega) hfrest ?_
        simp only [List.length_cons] at hlong
        simp
        omega

theorem runPings_slow (ts : List Nat) :
    ∀ (ws : WS) (t0 : Nat), ws.closed = false →
    ws.m_LastPingTime = some t0 →
    slowTimes t0 ts →
    (runPings ws ts).closed = false := by
  induction ts with
  | nil => intro ws _ hcl _ _; exact hcl
  | cons t rest ih =>
      intro ws t0 hcl hlp hslow
      obtain ⟨hgap, hsrest⟩ := hslow
      show (runPings (HandlePing ws t).1 rest).closed = false
      rw [HandlePing_slow ws t0 t hcl hlp (by omega)]
      exact ih _ t hcl rfl hsrest

/-- Claim C7: the ping guard.  From any open connection with a recorded
last-ping time and an over-speed counter within the threshold: a run of
consecutive too-fast pings long enough to push the counter past the fixed
threshold forcibly closes the connection, while any (arbitrarily long)
sequence of pings each arriving at or above the minimum interval keeps the
counter resetting and never closes the connection. -/
theorem claim_C7_ping_guard (ws : WS) (t0 : Nat) (ts : List Nat)
    (hcl : ws.closed = false) (hlp : ws.m_LastPingTime = some t0)
    (hctr : ws.m_OverSpeedPings ≤ MAX_OVERSPEED_PINGS) :
    (fastTimes t0 ts →
      MAX_OVERSPEED_PINGS + 1 ≤ ws.m_OverSpeedPings + ts.length →
      (runPings ws ts).closed = true)
    ∧ (slowTimes t0 ts → (runPings ws ts).closed = false) :=
  ⟨fun hfast hlong => runPings_fast ts ws t0 hcl hlp hctr hfast hlong,
   fun hslow => runPings_slow ts ws t0 hcl hlp hslow⟩

/-- Witness for C7: after a first ping at time 0, three pings at times 1, 2
and 3 (each interval below the 27-unit minimum) close the connection, while
pings at times 27 and 54 (compliant intervals) leave it open. -/
theorem claim_C7_ping_guard_witness :
    (runPings { mkWS AuthCrypt.initial with m_LastPingTime := some 0 }
        [1, 2, 3]).closed = true
    ∧ (runPings { mkWS AuthCrypt.initial with m_LastPingTime := some 0 }
        [27, 54]).closed = false :=
  ⟨(claim_C7_ping_guard { mkWS AuthCrypt.initial with m_LastPingTime := some 0 }
      0 [1, 2, 3] rfl rfl (by decide)).1
      (by refine ⟨by omega, by decide, by omega, by decide, by omega, by decide, trivial⟩)
      (by decide),
   (claim_C7_ping_guard { mkWS AuthCrypt.initial with m_LastPingTime := some 0 }
      0 [27, 54] rfl rfl (by decide)).2
      (by refine ⟨by decide, by decide, trivial⟩)⟩

/-! ## OutputBatcher lemmas -/

theorem refill_flatten (cap : Nat) (q : List (List Nat)) :
    ∀ buf, (refill cap buf q).1 ++ (refill cap buf q).2.flatten = buf ++ q.flatten := by
  induction q with
  | nil => intro buf; simp [refill]
  | cons p rest ih =>
      intro buf
      rw [refill]
      by_cases h : buf.length + p.length ≤ cap
      · rw [if_pos h, ih]
        simp
      · rw [if_neg h]

theorem outStream_send (b : Batcher) (p : List Nat) :
    outStream (b.send p) = outStream b ++ p := by
  rw [Batcher.send]
  by_cases h : b.buffer.length + p.length ≤ OUT_BUFFER_SIZE ∧ b.queue = []
  · rw [if_pos h]
    simp [outStream, h.2]
  · rw [if_neg h]
    simp [outStream]

theorem outStream_flush (b : Batcher) (a : Nat) :
    outStream (b.flush a) = outStream b := by
  rw [Batcher.flush]
  simp only []
  by_cases h : b.buffer.drop (min a b.buffer.length) = []
  · rw [if_pos h]
    have hb : b.buffer.take (min a b.buffer.length) = b.buffer := by
      conv_rhs => rw [← List.take_append_drop (min a b.buffer.length) b.buffer]
      rw [h, List.append_nil]
    simp only [outStream]
    rw [List.append_assoc, refill_flatten, hb]
    simp
  · rw [if_neg h]
    simp only [outStream]
    rw [List.append_assoc b.written, List.take_append_drop]

theorem batchStep_written (b : Batcher) (op : BatchOp) :
    ∃ w, (batchStep b op).written = b.written ++ w := by
  cases op with
  | send p =>
      refine ⟨[], ?_⟩
      rw [batchStep, Batcher.send]
      by_cases h : b.buffer.length + p.length ≤ OUT_BUFFER_SIZE ∧ b.queue = []
      · rw [if_pos h]; simp
      · rw [if_neg h]; simp
  | flush a =>
      refine ⟨b.buffer.take (min a b.buffer.length), ?_⟩
      rw [batchStep, Batcher.flush]
      simp only []
      by_cases h : b.buffer.drop (min a b.buffer.length) = []
      · rw [if_pos h]
      · rw [if_neg h]

theorem batchStep_stream (b : Batcher) (op : BatchOp) :
    outStream (batchStep b op) = outStream b ++
      (match op with | .send p => p | .flush _ => []) := by
  cases op with
  | send p => simpa [batchStep] using outStream_send b p
  | flush a => simpa [batchStep] using outStream_flush b a

/-- Claim C8: the output batcher preserves order and never loses bytes —
over any sequence of accepted `send` calls and flush opportunities, the byte
stream accounted for by the batcher (bytes written to the transport,
followed by the pending buffer, followed by the overflow queue in order)
equals the initial stream extended by exactly the accepted packets in call
order, and the written bytes only ever grow by appending (unsent bytes are
never dropped or reordered). -/
theorem claim_C8_batcher_order (b : Batcher) (ops : List BatchOp) :
    outStream (runBatch b ops) = outStream b ++ sentBytes ops
    ∧ ∃ w, (runBatch b ops).written = b.written ++ w := by
  induction ops generalizing b with
  | nil => simp [runBatch, sentBytes]
  | cons op rest ih =>
      have hstep : runBatch b (op :: rest) = runBatch (batchStep b op) rest := rfl
      obtain ⟨ihs, w2, ihw⟩ := ih (batchStep b op)
      obtain ⟨w1, hw1⟩ := batchStep_written b op
      constructor
      · rw [hstep, ihs, batchStep_stream]
        cases op <;> simp [sentBytes]
      · exact ⟨w1 ++ w2, by rw [hstep, ihw, hw1, List.append_assoc]⟩

/-! ## SessionBinding lemmas -/

theorem bindingStep_cleared (op : BindingOp) :
    bindingStep .cleared op = .cleared := by
  cases op <;> rfl

theorem runBinding_cleared (ops : List BindingOp) :
    runBinding .cleared ops = .cleared := by
  induction ops with
  | nil => rfl
  | cons op rest ih =>
      show runBinding (bindingStep .cleared op) rest = .cleared
      rw [bindingStep_cleared]
      exact ih

theorem runBinding_set (ops : List BindingOp) :
    ∀ sid, runBinding (.set sid) ops = .set sid
      ∨ runBinding (.set sid) ops = .cleared := by
  induction ops with
  | nil => intro sid; exact Or.inl rfl
  | cons op rest ih =>
      intro sid
      show runBinding (bindingStep (.set sid) op) rest = _ ∨ _
      cases op with
      | bind sid2 => exact ih sid
      | clear => exact Or.inr (runBinding_cleared rest)

theorem bindingStep_rank (b : Binding) (op : BindingOp) :
    b.rank ≤ (bindingStep b op).rank := by
  cases b <;> cases op <;> simp [bindingStep, Binding.rank]

theorem runBinding_rank (ops : List BindingOp) :
    ∀ b : Binding, b.rank ≤ (runBinding b ops).rank := by
  induction ops with
  | nil => intro b; exact le_refl _
  | cons op rest ih =>
      intro b
      exact le_trans (bindingStep_rank b op) (ih (bindingStep b op))

/-- Claim C9: the session binding evolves monotonically through
unset → set → cleared: its rank never decreases along any operation
sequence, once cleared it is never rebound (cleared is terminal), a bound
connection keeps the same session until cleared (it is bound at most once),
and every binding access is performed under the dedicated session lock,
which is distinct from the I/O-path lock. -/
theorem claim_C9_binding_monotonic (ops : List BindingOp) :
    runBinding .cleared ops = .cleared
    ∧ (∀ sid, runBinding (.set sid) ops = .set sid
        ∨ runBinding (.set sid) ops = .cleared)
    ∧ (∀ b : Binding, b.rank ≤ (runBinding b ops).rank)
    ∧ (∀ op : BindingOp, lockForBindingAccess op = LockId.sessionLock)
    ∧ LockId.sessionLock ≠ LockId.ioLock :=
  ⟨runBinding_cleared ops, runBinding_set ops, runBinding_rank ops,
   fun _ => rfl, by decide⟩

/-- Claim C10: every internal input-processing operation
(`handle_input_header`, `handle_input_payload`, `ProcessIncoming`,
`HandleAuthSession`, `HandlePing`) signals failure by returning -1 and
success by the non-negative value 0, and the public `SendPacket` signals
failure by returning `false` — exactly when the connection is closed — so a
caller can always decide success from the returned status. -/
theorem claim_C10_status_codes :
    (∀ ws : WS, (handle_input_header ws).2 = -1 ∨ (handle_input_header ws).2 = 0)
    ∧ (∀ ws : WS, (handle_input_payload ws).2 = -1 ∨ (handle_input_payload ws).2 = 0)
    ∧ (∀ (ws : WS) (f : Frame) (env : Env),
        (ProcessIncoming ws f env).2 = -1 ∨ (ProcessIncoming ws f env).2 = 0)
    ∧ (∀ (ws : WS) (outcome : AuthOutcome),
        (HandleAuthSession ws outcome).2 = -1 ∨ (HandleAuthSession ws outcome).2 = 0)
    ∧ (∀ (ws : WS) (t : Nat), (HandlePing ws t).2 = -1 ∨ (HandlePing ws t).2 = 0)
    ∧ (∀ (wsClosed : Bool) (b : Batcher) (pkt : List Nat),
        ((SendPacket wsClosed b pkt).2 = false ↔ wsClosed = true)) := by
  have hhdr : ∀ ws : WS,
      (handle_input_header ws).2 = -1 ∨ (handle_input_header ws).2 = 0 := by
    intro ws
    by_cases h1 : (parseHeader (decryptHeader ws.m_Crypt ws.m_Header).1).1 >
        MAX_PAYLOAD_LENGTH
    · exact Or.inl (by simp [handle_input_header, h1])
    · by_cases h2 : (parseHeader (decryptHeader ws.m_Crypt ws.m_Header).1).1 = 0
      · exact Or.inr (by simp [handle_input_header, h1, h2])
      · exact Or.inr (by simp [handle_input_header, h1, h2])
  have hpay : ∀ ws : WS,
      (handle_input_payload ws).2 = -1 ∨ (handle_input_payload ws).2 = 0 := by
    intro ws
    rcases hrw : ws.m_RecvWPct with _ | ⟨op, len, acc⟩
    · exact Or.inr (by simp [handle_input_payload, hrw])
    · by_cases h : acc.length = len
      · exact Or.inr (by simp [handle_input_payload, hrw, h])
      · exact Or.inr (by simp [handle_input_payload, hrw, h])
  have hauth : ∀ (ws : WS) (outcome : AuthOutcome),
      (HandleAuthSession ws outcome).2 = -1
      ∨ (HandleAuthSession ws outcome).2 = 0 := by
    intro ws outcome
    by_cases h : ws.m_Crypt.active
    · exact Or.inl (by simp [HandleAuthSession, h])
    · cases outcome <;> simp [HandleAuthSession, h]
  have hping : ∀ (ws : WS) (t : Nat),
      (HandlePing ws t).2 = -1 ∨ (HandlePing ws t).2 = 0 := by
    intro ws t
    by_cases hcl : ws.closed
    · exact Or.inl (by simp [HandlePing, hcl])
    · rcases hlp : ws.m_LastPingTime with _ | t0
      · exact Or.inr (by simp [HandlePing, hcl, hlp])
      · by_cases hd : t - t0 < MIN_PING_INTERVAL
        · by_cases hover : MAX_OVERSPEED_PINGS < ws.m_OverSpeedPings + 1
          · exact Or.inl (by simp [HandlePing, hcl, hlp, hd, hover])
          · exact Or.inr (by simp [HandlePing, hcl, hlp, hd, hover])
        · exact Or.inr (by simp [HandlePing, hcl, hlp, hd])
  refine ⟨hhdr, hpay, ?_, hauth, hping, ?_⟩
  · intro ws f env
    by_cases hp : f.opcode = CMSG_PING
    · simpa [ProcessIncoming, hp] using hping ws env.now
    · by_cases ha : f.opcode = CMSG_AUTH_SESSION
      · simpa [ProcessIncoming, hp, ha] using hauth ws env.outcome
      · rcases hs : ws.m_Session with _ | sid | _
        · exact Or.inl (by simp [ProcessIncoming, hp, ha, hs])
        · exact Or.inr (by simp [ProcessIncoming, hp, ha, hs])
        · exact Or.inl (by simp [ProcessIncoming, hp, ha, hs])
  · intro wsClosed b pkt
    cases wsClosed <;> simp [SendPacket]
